import Mathlib

/-!
Shallow embedding of the pattern-detection-and-rewrite engine of
`src/web-modernization-architect/scripts/modernize.py` (class `CodeModernizer`).

Python strings are modelled as `List Char`.  The regular expressions of the
source are simple enough that each one is embedded as a dedicated scanner that
mirrors the left-to-right, non-overlapping matching of `re.findall`/`re.sub`,
including word-boundary (`\b`) handling via the previous character.  The
character classes `\w` and `\s` are embedded at their ASCII meaning, which is
exact for every input considered here.  Scanners that restart after the end of
a match take a fuel argument (initially the text length, which bounds the
number of scanning steps) so that every definition is structurally recursive
and evaluates inside the kernel.
-/

namespace WM

/-- A Python `str`, as a list of characters. -/
abbrev Text := List Char

/-- A change record as produced by `log_change` minus the file path:
(category, description).  The path is attached in `transformFile` below,
mirroring `log_change`'s `file` field. -/
abbrev RuleRec := Text × Text

/-- `isPrefixOfB p t` : does `t` start with `p`?  (Python `t.startswith(p)`.) -/
def isPrefixOfB : Text → Text → Bool
  | [], _ => true
  | _ :: _, [] => false
  | p :: ps, x :: xs => if p = x then isPrefixOfB ps xs else false

/-- `containsB p t` : substring test, Python `p in t` (for the nonempty
patterns used by the source). -/
def containsB (pat : Text) : Text → Bool
  | [] => isPrefixOfB pat []
  | x :: xs => isPrefixOfB pat (x :: xs) || containsB pat xs

/-- `replaceOne pat rep t` : Python `t.replace(pat, rep, 1)` for nonempty
`pat` — replace the first occurrence only. -/
def replaceOne (pat rep : Text) : Text → Text
  | [] => []
  | x :: xs =>
      if isPrefixOfB pat (x :: xs) = true then rep ++ (x :: xs).drop pat.length
      else x :: replaceOne pat rep xs

/-- Fuelled body of `replaceAll`. -/
def replaceAllF (pat rep : Text) : Nat → Text → Text
  | _, [] => []
  | 0, t => t
  | fuel + 1, x :: xs =>
      if isPrefixOfB pat (x :: xs) = true then
        rep ++ replaceAllF pat rep fuel ((x :: xs).drop pat.length)
      else x :: replaceAllF pat rep fuel xs

/-- `replaceAll pat rep t` : Python `t.replace(pat, rep)` for nonempty `pat` —
replace all non-overlapping occurrences, left to right. -/
def replaceAll (pat rep t : Text) : Text := replaceAllF pat rep t.length t

theorem isPrefixOfB_self_append (p r : Text) : isPrefixOfB p (p ++ r) = true := by
  induction p with
  | nil => rfl
  | cons x xs ih => simp [isPrefixOfB, ih]

theorem isPrefixOfB_exists (p : Text) :
    ∀ t : Text, isPrefixOfB p t = true → ∃ r, t = p ++ r := by
  induction p with
  | nil => exact fun t _ => ⟨t, rfl⟩
  | cons x xs ih =>
    intro t h
    cases t with
    | nil => simp [isPrefixOfB] at h
    | cons y ys =>
      unfold isPrefixOfB at h
      split at h
      · next hxy =>
          obtain ⟨r, hr⟩ := ih ys h
          exact ⟨r, by simp [hxy, hr]⟩
      · exact absurd h (by simp)

theorem containsB_of_isPrefixOfB (p t : Text) (h : isPrefixOfB p t = true) :
    containsB p t = true := by
  cases t with
  | nil => simpa [containsB] using h
  | cons y ys => simp [containsB, h]

theorem containsB_exists (p : Text) :
    ∀ t : Text, containsB p t = true → ∃ a b, t = a ++ p ++ b := by
  intro t
  induction t with
  | nil =>
    intro h
    cases p with
    | nil => exact ⟨[], [], rfl⟩
    | cons q qs => simp [containsB, isPrefixOfB] at h
  | cons x xs ih =>
    intro h
    rcases Bool.or_eq_true_iff.mp (by simpa [containsB] using h) with h1 | h2
    · obtain ⟨r, hr⟩ := isPrefixOfB_exists p _ h1
      exact ⟨[], r, by simpa using hr⟩
    · obtain ⟨a, b, hab⟩ := ih h2
      exact ⟨x :: a, b, by simp [hab]⟩

theorem exists_containsB (p : Text) :
    ∀ a b : Text, containsB p (a ++ p ++ b) = true := by
  intro a
  induction a with
  | nil =>
    intro b
    exact containsB_of_isPrefixOfB p _ (by simpa using isPrefixOfB_self_append p b)
  | cons x a' ih =>
    intro b
    have : containsB p ((x :: a') ++ p ++ b)
        = (isPrefixOfB p ((x :: a') ++ p ++ b) || containsB p (a' ++ p ++ b)) := by
      simp [containsB]
    rw [this, ih b, Bool.or_true]

theorem containsB_mid (s r a b : Text) (h : containsB s r = true) :
    containsB s (a ++ r ++ b) = true := by
  obtain ⟨x, y, hxy⟩ := containsB_exists s r h
  have := exists_containsB s (a ++ x) (y ++ b)
  simpa [hxy, List.append_assoc] using this

theorem containsB_append_left (s a b : Text) (h : containsB s a = true) :
    containsB s (a ++ b) = true := by
  have := containsB_mid s a [] b h
  simpa using this

theorem replaceOne_not (p rep : Text) :
    ∀ t : Text, containsB p t = false → replaceOne p rep t = t := by
  intro t
  induction t with
  | nil => intro _; rfl
  | cons x xs ih =>
    intro h
    have h' := (Bool.or_eq_false_iff.mp (by simpa [containsB] using h))
    unfold replaceOne
    rw [if_neg (by simp [h'.1]), ih h'.2]

theorem replaceOne_found (p rep : Text) (hp : p ≠ []) :
    ∀ t : Text, containsB p t = true →
      ∃ a b, t = a ++ p ++ b ∧ replaceOne p rep t = a ++ rep ++ b := by
  intro t
  induction t with
  | nil =>
    intro h
    cases p with
    | nil => exact absurd rfl hp
    | cons q qs => simp [containsB, isPrefixOfB] at h
  | cons x xs ih =>
    intro h
    by_cases hpre : isPrefixOfB p (x :: xs) = true
    · obtain ⟨r, hr⟩ := isPrefixOfB_exists p _ hpre
      refine ⟨[], r, by simpa using hr, ?_⟩
      unfold replaceOne
      rw [if_pos hpre, hr]
      simp [List.drop_left]
    · have h2 : containsB p xs = true := by
        rcases Bool.or_eq_true_iff.mp (by simpa [containsB] using h) with h1 | h2
        · exact absurd h1 hpre
        · exact h2
      obtain ⟨a, b, hab, hres⟩ := ih h2
      refine ⟨x :: a, b, by simp [hab], ?_⟩
      unfold replaceOne
      rw [if_neg hpre, hres]
      simp

theorem replaceOne_head (pat rep rest : Text) (hne : pat ≠ []) :
    replaceOne pat rep (pat ++ rest) = rep ++ rest := by
  cases pat with
  | nil => exact absurd rfl hne
  | cons p ps =>
    have hpre : isPrefixOfB (p :: ps) ((p :: ps) ++ rest) = true :=
      isPrefixOfB_self_append _ _
    show replaceOne (p :: ps) rep (p :: (ps ++ rest)) = rep ++ rest
    unfold replaceOne
    rw [if_pos (by simpa using hpre)]
    simp [List.drop_left]

/-! ### HTML rule 1 — inline-style extraction (modernize.py lines 62-83)

`re.findall(r'style="([^"]*)"', content)` : scan left to right for the
literal `style="`, capture up to the next `"`; a position without a closing
quote fails and the scan advances one character. -/

/-- Fuelled scanner for `re.findall(r'style="([^"]*)"', content)`. -/
def findStylesF : Nat → Text → List Text
  | 0, _ => []
  | _ + 1, [] => []
  | fuel + 1, x :: xs =>
      if isPrefixOfB "style=\"".data (x :: xs) = true then
        let rest := (x :: xs).drop 7
        let cap := rest.takeWhile (fun c => c != '"')
        if cap.length < rest.length then
          cap :: findStylesF fuel (rest.drop (cap.length + 1))
        else findStylesF fuel xs
      else findStylesF fuel xs

def findStyles (t : Text) : List Text := findStylesF t.length t

/-- The per-occurrence rewrite loop: for the `i`-th captured style (1-indexed)
replace the first remaining occurrence of the exact attribute text
`style="<s>"` with `class="inline-style-<i>"` (`content.replace(..., 1)`).
The generated CSS class text built in `css_classes` is never used in any
output of the source, so it is not materialised here. -/
def inlineApply : Nat → List Text → Text → Text
  | _, [], c => c
  | i, s :: rest, c =>
      inlineApply (i + 1) rest
        (replaceOne ("style=\"".data ++ s ++ ['"'])
          ("class=\"inline-style-".data ++ (Nat.repr i).data ++ ['"']) c)

def inlineStylesRule (c : Text) : Text × List RuleRec :=
  let styles := findStyles c
  if styles.isEmpty then (c, [])
  else
    (inlineApply 1 styles c,
     [("inline-styles".data,
       "Extracted ".data ++ (Nat.repr styles.length).data
         ++ " inline styles to classes".data)])

/-! ### HTML rule 2 — viewport insertion (modernize.py lines 85-89) -/

def vpGuardStr : Text := "<meta name=\"viewport\"".data

def headTag : Text := "<head>".data

def viewportMeta : Text :=
  "<meta name=\"viewport\" content=\"width=device-width, initial-scale=1.0\">".data

/-- The replacement text `f'<head>\n    {viewport}'`. -/
def vpInsert : Text := "<head>\n    ".data ++ viewportMeta

/-- `if '<meta name="viewport"' not in content and '<head' in content:`
then `content.replace('<head>', f'<head>\n    {viewport}', 1)` and one
`viewport` change record.  Note the guard tests the prefix `<head` while the
replacement targets the literal `<head>` only. -/
def viewportRule (c : Text) : Text × List RuleRec :=
  if containsB vpGuardStr c = false ∧ containsB "<head".data c = true then
    (replaceOne headTag vpInsert c,
     [("viewport".data, "Added viewport meta tag".data)])
  else (c, [])

/-! ### HTML rule 3 — alt-text synthesis (modernize.py lines 91-105) -/

/-- Fuelled scanner for `re.findall(r'<img(?![^>]*alt=)[^>]*>', content)`:
at `<img`, the span of non-`>` characters that follows must contain no
`alt=` (the negative lookahead) and must be closed by `>`. -/
def findImgsF : Nat → Text → List Text
  | 0, _ => []
  | _ + 1, [] => []
  | fuel + 1, x :: xs =>
      if isPrefixOfB "<img".data (x :: xs) = true then
        let rest := (x :: xs).drop 4
        let span := rest.takeWhile (fun c => c != '>')
        if span.length < rest.length ∧ containsB "alt=".data span = false then
          ("<img".data ++ span ++ ['>']) :: findImgsF fuel (rest.drop (span.length + 1))
        else findImgsF fuel xs
      else findImgsF fuel xs

def findImgs (t : Text) : List Text := findImgsF t.length t

/-- Fuelled scanner for `re.search(r'src="([^"]*)"', img)` — first match. -/
def searchSrcF : Nat → Text → Option Text
  | 0, _ => none
  | _ + 1, [] => none
  | fuel + 1, x :: xs =>
      if isPrefixOfB "src=\"".data (x :: xs) = true then
        let rest := (x :: xs).drop 5
        let cap := rest.takeWhile (fun c => c != '"')
        if cap.length < rest.length then some cap
        else searchSrcF fuel xs
      else searchSrcF fuel xs

def searchSrc (t : Text) : Option Text := searchSrcF t.length t

/-- `pathlib.Path(s).name` : the final path component (trailing slashes
stripped first). -/
def pathName (s : Text) : Text :=
  (((s.reverse.dropWhile (fun c => c = '/')).takeWhile (fun c => c != '/'))).reverse

/-- `pathlib.Path(s).stem` : the final component minus its suffix; the suffix
is `name[i:]` for `i = name.rfind('.')` only when `0 < i < len(name) - 1`. -/
def stem (s : Text) : Text :=
  let name := pathName s
  let extR := name.reverse.takeWhile (fun c => c != '.')
  if extR.length = name.length then name
  else
    let i := name.length - extR.length - 1
    if 0 < i ∧ 0 < extR.length then name.take i else name

/-- `str.title()` restricted to ASCII letters: the first letter of every
maximal run of letters is uppercased, the rest lowercased. -/
def titleGo : Bool → Text → Text
  | _, [] => []
  | prevCased, c :: cs =>
      if c.isAlpha then (if prevCased then c.toLower else c.toUpper) :: titleGo true cs
      else c :: titleGo false cs

def titleCase (t : Text) : Text := titleGo false t

/-- Alt-text derivation (line 96): `"Image" if not src_match else
Path(src).stem.replace('-', ' ').replace('_', ' ').title()`. -/
def altText (img : Text) : Text :=
  match searchSrc img with
  | none => "Image".data
  | some src =>
      titleCase (((stem src).map (fun c => if c = '-' then ' ' else c)).map
        (fun c => if c = '_' then ' ' else c))

/-- `img.replace('<img', f'<img alt="{alt_text}"', 1)`. -/
def processImg (img : Text) : Text :=
  replaceOne "<img".data ("<img alt=\"".data ++ altText img ++ ['"']) img

/-- The per-image loop: `content.replace(img, new_img, 1)` for each found
tag, in order. -/
def imgApply : List Text → Text → Text
  | [], c => c
  | img :: rest, c => imgApply rest (replaceOne img (processImg img) c)

def imgAltRule (c : Text) : Text × List RuleRec :=
  let imgs := findImgs c
  if imgs.isEmpty then (c, [])
  else
    (imgApply imgs c,
     [("accessibility".data,
       "Added alt attributes to ".data ++ (Nat.repr imgs.length).data
         ++ " images".data)])

/-! ### HTML rule 4 — deprecated tags (modernize.py lines 107-124) -/

/-- The `deprecated_replacements` dict, in insertion (= iteration) order. -/
def deprecatedPairs : List (Text × Text) :=
  [("<b>".data, "<strong>".data),
   ("</b>".data, "</strong>".data),
   ("<i>".data, "<em>".data),
   ("</i>".data, "</em>".data),
   ("<center>".data, "<div style=\"text-align: center;\">".data),
   ("</center>".data, "</div>".data)]

/-- `for old, new in deprecated_replacements.items(): if old in content:
content = content.replace(old, new); log_change(...)` — note one record per
dict entry whose key occurs, i.e. per tag token, not per tag pair. -/
def depApply : List (Text × Text) → Text → Text × List RuleRec
  | [], c => (c, [])
  | (old, new) :: rest, c =>
      if containsB old c = true then
        let c' := replaceAll old new c
        let res := depApply rest c'
        (res.1,
         ("deprecated-tags".data,
          "Replaced ".data ++ old ++ " with ".data ++ new) :: res.2)
      else depApply rest c

def deprecatedRule (c : Text) : Text × List RuleRec := depApply deprecatedPairs c

/-- `modernize_html`'s full transformation of one file content: the four
rules in source order, records concatenated in emission order. -/
def modHtmlCore (c : Text) : Text × List RuleRec :=
  let p1 := inlineStylesRule c
  let p2 := viewportRule p1.1
  let p3 := imgAltRule p2.1
  let p4 := deprecatedRule p3.1
  (p4.1, p1.2 ++ p2.2 ++ p3.2 ++ p4.2)

/-! ### CSS rule — custom-properties scaffold (modernize.py lines 134-184)

The `simple_px_widths` findall and the `changes_made` flag of the source have
no effect on the produced content or records and are not materialised. -/

/-- The `css_vars` triple-quoted literal (lines 146-169), byte for byte. -/
def cssScaffold : Text :=
  ("\n/* CSS Custom Properties - Add your design system values here */\n:root \x7b\n  --color-primary: #007bff;\n  --color-secondary: #6c757d;\n  --color-success: #28a745;\n  --color-danger: #dc3545;\n  --color-warning: #ffc107;\n  --color-info: #17a2b8;\n  \n  --font-family-base: -apple-system, BlinkMacSystemFont, \"Segoe UI\", Roboto, \"Helvetica Neue\", Arial, sans-serif;\n  --font-size-base: 1rem;\n  --line-height-base: 1.5;\n  \n  --spacing-unit: 0.25rem;\n  --border-radius: 0.25rem;\n  \n  --breakpoint-sm: 576px;\n  --breakpoint-md: 768px;\n  --breakpoint-lg: 992px;\n  --breakpoint-xl: 1200px;\n\x7d\n\n").data

/-- `if '--' not in content: content = css_vars + content` plus one
`css-variables` record. -/
def modCssCore (c : Text) : Text × List RuleRec :=
  if containsB "--".data c = false then
    (cssScaffold ++ c,
     [("css-variables".data, "Added CSS custom properties template".data)])
  else (c, [])

/-! ### JS rule — var to let/const (modernize.py lines 186-220)

`\w` and `\s` at their ASCII meaning; `\b` is checked against the character
preceding the match position. -/

def isWordChar (c : Char) : Bool := c.isAlphanum || c = '_'

/-- Python's `\s`: space, tab, newline, carriage return, vertical tab,
form feed. -/
def isSpaceChar (c : Char) : Bool :=
  c = ' ' || c = '\t' || c = '\n' || c = '\r' || c = '\x0b' || c = '\x0c'

/-- `\b` before a word character: start of text or a non-word character. -/
def boundaryOK : Option Char → Bool
  | none => true
  | some c => !isWordChar c

/-- Try `var\s+(\w+)\s*=` at the head of `t`; return the captured name and
the total matched length. -/
def tryVarDecl (t : Text) : Option (Text × Nat) :=
  if isPrefixOfB "var".data t = true then
    let r1 := t.drop 3
    let sp1 := r1.takeWhile isSpaceChar
    if sp1.isEmpty then none
    else
      let r2 := r1.drop sp1.length
      let name := r2.takeWhile isWordChar
      if name.isEmpty then none
      else
        let r3 := r2.drop name.length
        let sp2 := r3.takeWhile isSpaceChar
        match r3.drop sp2.length with
        | '=' :: _ => some (name, 3 + sp1.length + name.length + sp2.length + 1)
        | _ => none
  else none

/-- Fuelled scanner for `re.findall(r'\bvar\s+(\w+)\s*=', content)`; the
scan resumes after the `=` of a match (previous character `=`). -/
def findVarDeclsF : Nat → Option Char → Text → List Text
  | 0, _, _ => []
  | _ + 1, _, [] => []
  | fuel + 1, prev, x :: xs =>
      if boundaryOK prev = true then
        match tryVarDecl (x :: xs) with
        | some (name, len) => name :: findVarDeclsF fuel (some '=') ((x :: xs).drop len)
        | none => findVarDeclsF fuel (some x) xs
      else findVarDeclsF fuel (some x) xs

def findVarDecls (t : Text) : List Text := findVarDeclsF t.length none t

/-- Try `{name}\s*=` at the head of `t`; return the matched length. -/
def tryAssign (name t : Text) : Option Nat :=
  if isPrefixOfB name t = true then
    let r := t.drop name.length
    let sp := r.takeWhile isSpaceChar
    match r.drop sp.length with
    | '=' :: _ => some (name.length + sp.length + 1)
    | _ => none
  else none

/-- Fuelled counter for `len(re.findall(f'\\b{name}\\s*=', content))`. -/
def countAssignF (name : Text) : Nat → Option Char → Text → Nat
  | 0, _, _ => 0
  | _ + 1, _, [] => 0
  | fuel + 1, prev, x :: xs =>
      if boundaryOK prev = true then
        match tryAssign name (x :: xs) with
        | some len => countAssignF name fuel (some '=') ((x :: xs).drop len) + 1
        | none => countAssignF name fuel (some x) xs
      else countAssignF name fuel (some x) xs

def countAssign (name t : Text) : Nat := countAssignF name t.length none t

/-- Try `var\s+{name}\s*=` (the literal identifier) at the head of `t`. -/
def tryVarNamed (name t : Text) : Option Nat :=
  if isPrefixOfB "var".data t = true then
    let r1 := t.drop 3
    let sp1 := r1.takeWhile isSpaceChar
    if sp1.isEmpty then none
    else
      let r2 := r1.drop sp1.length
      if isPrefixOfB name r2 = true then
        let r3 := r2.drop name.length
        let sp2 := r3.takeWhile isSpaceChar
        match r3.drop sp2.length with
        | '=' :: _ => some (3 + sp1.length + name.length + sp2.length + 1)
        | _ => none
      else none
  else none

/-- `re.sub(f'\\bvar\\s+{name}\\s*=', f'{kw} {name} =', content, count=1)`:
rewrite the first remaining declaration occurrence only. -/
def subVarGo (name kw : Text) : Option Char → Text → Text
  | _, [] => []
  | prev, x :: xs =>
      if boundaryOK prev = true then
        match tryVarNamed name (x :: xs) with
        | some len => kw ++ [' '] ++ name ++ " =".data ++ ((x :: xs).drop len)
        | none => x :: subVarGo name kw (some x) xs
      else x :: subVarGo name kw (some x) xs

def subVarOnce (name kw t : Text) : Text := subVarGo name kw none t

/-- The per-occurrence loop of `modernize_js`: one iteration per entry of the
findall list (duplicates included); the assignment count is taken on the
current, partially rewritten content. -/
def jsApply : List Text → Text → Text
  | [], c => c
  | name :: rest, c =>
      let n := countAssign name c
      let kw := if n = 1 then "const".data else "let".data
      jsApply rest (subVarOnce name kw c)

def modJsCore (c : Text) : Text × List RuleRec :=
  let decls := findVarDecls c
  if decls.isEmpty then (c, [])
  else
    (jsApply decls c,
     [("modern-js".data,
       "Replaced ".data ++ (Nat.repr decls.length).data
         ++ " var declarations with let/const".data)])

/-! ### Session model (modernize.py lines 23-48, 57-59, 127-132, 179-184,
223-228, 230-236) -/

inductive FType
  | html
  | css
  | js
deriving DecidableEq

/-- The pure per-file transformation for each file type. -/
def transformFor : FType → Text → Text × List RuleRec
  | .html => modHtmlCore
  | .css => modCssCore
  | .js => modJsCore

/-- One entry of `self.changes` as appended by `log_change`. -/
structure ChangeRec where
  file : Text
  category : Text
  description : Text
deriving DecidableEq

/-- A file's transformation together with its change records, path attached
as `log_change` does. -/
def transformFile (t : FType) (path c : Text) : Text × List ChangeRec :=
  let res := transformFor t c
  (res.1, res.2.map (fun r => ⟨path, r.1, r.2⟩))

/-- The write gate at the end of each `modernize_*` method:
`if content != original_content: if not self.dry_run: write`.
Returns (on-disk content after the call, whether a write happened). -/
def fileCommit (dry : Bool) (orig new : Text) : Text × Bool :=
  if new ≠ orig then
    if dry then (orig, false) else (new, true)
  else (orig, false)

/-- A discovered source file of the session. -/
structure SrcFile where
  ftype : FType
  path : Text
  content : Text

/-- On-disk contents after a session run over a list of discovered files. -/
def sessionDisk (dry : Bool) (files : List SrcFile) : List Text :=
  files.map (fun f => (fileCommit dry f.content (transformFor f.ftype f.content).1).1)

/-! ### Read-failure model (modernize.py lines 37-45, 59)

`read_text(encoding='utf-8', errors='ignore')` cannot raise on malformed
bytes (undecodable bytes are dropped), so decoding is total; an OS-level
read error, however, raises, and the `modernize()` loop has no `try`: the
exception propagates and ends the session. -/

/-- A file as the session loop sees it: `readable = false` models an
OS-level read error (e.g. permissions). -/
structure RawFile where
  readable : Bool
  ftype : FType
  content : Text
deriving DecidableEq

/-- `read_text` with `errors='ignore'`: total on the decoding side, `none`
only for an OS-level failure. -/
def readText (f : RawFile) : Option Text :=
  if f.readable then some f.content else none

/-- The session loop: contents produced for the files processed before any
failure, and the first unreadable file if one was hit (the uncaught
exception ends the loop there). -/
def sessionProcess : List RawFile → List Text × Option RawFile
  | [] => ([], none)
  | f :: rest =>
      match readText f with
      | none => ([], some f)
      | some c =>
          let res := sessionProcess rest
          ((transformFor f.ftype c).1 :: res.1, res.2)

/-- Modelled from the spec: claim C8's per-file skip handling ("a file that
still cannot be read is skipped, not fatal to the session ... the session
continues with the remaining files"), which is absent from the source. -/
def sessionProcessSkip : List RawFile → List Text
  | [] => []
  | f :: rest =>
      match readText f with
      | none => sessionProcessSkip rest
      | some c => (transformFor f.ftype c).1 :: sessionProcessSkip rest

/-! ## Theorems -/

theorem fileCommit_dry_fst (o n : Text) : (fileCommit true o n).1 = o := by
  unfold fileCommit
  split
  · simp
  · rfl

/-- Claim C1: with dry-run enabled no file's on-disk content changes; a write
never happens when the transformed content equals the original; a write
happens exactly when the transformed text differs and dry-run is false. -/
theorem c1_dry_run_and_write_gate (dry : Bool) (files : List SrcFile) (orig new : Text) :
    (dry = true → sessionDisk dry files = files.map (fun f => f.content)) ∧
    (new = orig → (fileCommit dry orig new).2 = false) ∧
    ((fileCommit dry orig new).2 = true ↔ new ≠ orig ∧ dry = false) := by
  refine ⟨?_, ?_, ?_, ?_⟩
  · intro hdry
    subst hdry
    simp [sessionDisk, fileCommit_dry_fst]
  · intro h
    subst h
    simp [fileCommit]
  · intro h
    unfold fileCommit at h
    split at h
    · next hne =>
        cases dry with
        | true => simp at h
        | false => exact ⟨hne, rfl⟩
    · simp at h
  · rintro ⟨hne, hdry⟩
    subst hdry
    simp [fileCommit, hne]

/-- Witness for C1 at a concrete file list and concrete contents. -/
theorem c1_dry_run_and_write_gate_witness :
    sessionDisk true [⟨FType.html, "a.html".data, "<b>x</b>".data⟩] =
      [(⟨FType.html, "a.html".data, "<b>x</b>".data⟩ : SrcFile)].map (fun f => f.content) ∧
    (fileCommit false "x".data "x".data).2 = false :=
  ⟨(c1_dry_run_and_write_gate true [⟨FType.html, "a.html".data, "<b>x</b>".data⟩] [] []).1 rfl,
   (c1_dry_run_and_write_gate false [] "x".data "x".data).2.1 rfl⟩

/-- Claim C9: each per-file transformation is a pure function of the input
text and path — equal inputs give equal transformed text and records. -/
theorem c9_deterministic (t : FType) (p1 p2 c1 c2 : Text) (hp : p1 = p2) (hc : c1 = c2) :
    transformFile t p1 c1 = transformFile t p2 c2 := by
  rw [hp, hc]

/-- Witness for C9 at a concrete path and content. -/
theorem c9_deterministic_witness :
    transformFile FType.html "index.html".data "<b>hi</b>".data
      = transformFile FType.html "index.html".data "<b>hi</b>".data :=
  c9_deterministic FType.html "index.html".data "index.html".data
    "<b>hi</b>".data "<b>hi</b>".data rfl rfl

/-- Claim C10: the scaffold guard is a plain `--` substring test — any text
containing `--` anywhere (comments included) is left unchanged with no
record, and the scaffold is prepended exactly when `--` is absent. -/
theorem c10_css_guard (c : Text) :
    (containsB "--".data c = true → modCssCore c = (c, [])) ∧
    (containsB "--".data c = false →
      modCssCore c = (cssScaffold ++ c,
        [("css-variables".data, "Added CSS custom properties template".data)])) := by
  constructor
  · intro h
    simp [modCssCore, h]
  · intro h
    simp [modCssCore, h]

/-- Witness for C10: a `--` inside a comment suppresses the scaffold; a text
without `--` receives it. -/
theorem c10_css_guard_witness :
    modCssCore "/* -- */ p: 1;".data = ("/* -- */ p: 1;".data, []) ∧
    modCssCore "p: 1;".data = (cssScaffold ++ "p: 1;".data,
      [("css-variables".data, "Added CSS custom properties template".data)]) :=
  ⟨(c10_css_guard "/* -- */ p: 1;".data).1 (by decide),
   (c10_css_guard "p: 1;".data).2 (by decide)⟩

theorem depApply_category (pairs : List (Text × Text)) :
    ∀ c r, r ∈ (depApply pairs c).2 → r.1 = "deprecated-tags".data := by
  induction pairs with
  | nil =>
    intro c r h
    simp [depApply] at h
  | cons p rest ih =>
    intro c r h
    obtain ⟨old, new⟩ := p
    simp only [depApply] at h
    split at h
    · rcases List.mem_cons.mp h with h | h
      · rw [h]
      · exact ih _ r h
    · exact ih _ r h

/-- Counterexample to C2: `<b>hi</b>` yields two `deprecated-tags` records
(one per tag token), not exactly one per tag pair. -/
theorem c2_counterexample :
    deprecatedRule "<b>hi</b>".data =
      ("<strong>hi</strong>".data,
       [("deprecated-tags".data, "Replaced <b> with <strong>".data),
        ("deprecated-tags".data, "Replaced </b> with </strong>".data)]) ∧
    (deprecatedRule "<b>hi</b>".data).2.length = 2 :=
  ⟨by decide, by decide⟩

/-- Claim C2 as amended: every literal occurrence of each deprecated tag
token is replaced, and one ChangeRecord is emitted per distinct tag token
present (so a pair occurring as opening and closing tokens logs twice); all
records carry the `deprecated-tags` category. -/
theorem c2_amended :
    (∀ c r, r ∈ (deprecatedRule c).2 → r.1 = "deprecated-tags".data) ∧
    deprecatedRule "<b>a</b><b>c</b>".data =
      ("<strong>a</strong><strong>c</strong>".data,
       [("deprecated-tags".data, "Replaced <b> with <strong>".data),
        ("deprecated-tags".data, "Replaced </b> with </strong>".data)]) ∧
    deprecatedRule "<i>x</i><center>y</center>".data =
      ("<em>x</em><div style=\"text-align: center;\">y</div>".data,
       [("deprecated-tags".data, "Replaced <i> with <em>".data),
        ("deprecated-tags".data, "Replaced </i> with </em>".data),
        ("deprecated-tags".data, "Replaced <center> with <div style=\"text-align: center;\">".data),
        ("deprecated-tags".data, "Replaced </center> with </div>".data)]) :=
  ⟨fun c r h => depApply_category deprecatedPairs c r h, by decide, by decide⟩

/-- Witness for the quantified part of the amended C2. -/
theorem c2_amended_witness :
    (("deprecated-tags".data, "Replaced <b> with <strong>".data) : RuleRec).1
      = "deprecated-tags".data :=
  c2_amended.1 "<b>hi</b>".data ("deprecated-tags".data, "Replaced <b> with <strong>".data)
    (by decide)

/-- Counterexample to C3: `<head lang="en"></head>` has a `<head>` opening
tag with attributes and no viewport meta tag, yet the rule inserts nothing
(the replacement targets the literal `<head>` only) while still emitting a
`viewport` ChangeRecord. -/
theorem c3_counterexample :
    (viewportRule "<head lang=\"en\"></head>".data).1 = "<head lang=\"en\"></head>".data ∧
    (viewportRule "<head lang=\"en\"></head>".data).2 =
      [("viewport".data, "Added viewport meta tag".data)] :=
  ⟨by decide, by decide⟩

/-- Claim C3 as amended: when no viewport meta tag is present and the text
contains the substring `<head`, the rule emits one `viewport` ChangeRecord
unconditionally; the meta tag is actually inserted only when the literal
attribute-free `<head>` occurs, and otherwise the text is left unchanged
(so a record does not imply an insertion). -/
theorem c3_amended (c : Text)
    (h1 : containsB vpGuardStr c = false)
    (h2 : containsB "<head".data c = true) :
    (viewportRule c).2 = [("viewport".data, "Added viewport meta tag".data)] ∧
    (containsB headTag c = true → containsB vpGuardStr (viewportRule c).1 = true) ∧
    (containsB headTag c = false → (viewportRule c).1 = c) := by
  refine ⟨?_, ?_, ?_⟩
  · simp [viewportRule, h1, h2]
  · intro hh
    obtain ⟨a, b, _, hres⟩ := replaceOne_found headTag vpInsert (by decide) c hh
    have hmeta : containsB vpGuardStr vpInsert = true := by decide
    simp only [viewportRule, h1, h2, and_self, if_pos]
    rw [hres]
    exact containsB_mid _ _ _ _ hmeta
  · intro hh
    simp only [viewportRule, h1, h2, and_self, if_pos]
    exact replaceOne_not _ _ c hh

/-- Witness for the amended C3 at `<head></head>`. -/
theorem c3_amended_witness :
    (viewportRule "<head></head>".data).2 = [("viewport".data, "Added viewport meta tag".data)] ∧
    (containsB headTag "<head></head>".data = true →
      containsB vpGuardStr (viewportRule "<head></head>".data).1 = true) ∧
    (containsB headTag "<head></head>".data = false →
      (viewportRule "<head></head>".data).1 = "<head></head>".data) :=
  c3_amended "<head></head>".data (by decide) (by decide)

/-- Counterexample to C4: on `<head lang="en">` the viewport rule's guard
passes again after a first application (nothing was inserted), so the second
application emits a ChangeRecord — the pair of guarded rules is not
record-free on the second run. -/
theorem c4_counterexample :
    (viewportRule (viewportRule "<head lang=\"en\">".data).1).2 =
      [("viewport".data, "Added viewport meta tag".data)] := by decide

/-- Claim C4 as amended: both rules are idempotent on the text — a second
application never modifies it — and the custom-properties rule also emits no
second record; the viewport rule emits no second record whenever the first
application actually changed the text, but on text containing `<head`
without the literal `<head>` (and no viewport tag) it emits a record on
every application. -/
theorem c4_amended (c : Text) :
    (viewportRule (viewportRule c).1).1 = (viewportRule c).1 ∧
    ((viewportRule c).1 ≠ c → viewportRule ((viewportRule c).1) = ((viewportRule c).1, [])) ∧
    modCssCore ((modCssCore c).1) = ((modCssCore c).1, []) := by
  have hcss : modCssCore ((modCssCore c).1) = ((modCssCore c).1, []) := by
    by_cases hc : containsB "--".data c = true
    · have h1 : modCssCore c = (c, []) := by simp [modCssCore, hc]
      rw [h1]
      simp [modCssCore, hc]
    · have hc' : containsB "--".data c = false := by
        cases h : containsB "--".data c
        · rfl
        · exact absurd h hc
      have h1 : (modCssCore c).1 = cssScaffold ++ c := by simp [modCssCore, hc']
      have h2 : containsB "--".data (cssScaffold ++ c) = true :=
        containsB_append_left _ _ _ (by decide)
      rw [h1]
      simp [modCssCore, h2]
  by_cases hg : containsB vpGuardStr c = false ∧ containsB "<head".data c = true
  · obtain ⟨h1, h2⟩ := hg
    have hv : viewportRule c = (replaceOne headTag vpInsert c, [("viewport".data, "Added viewport meta tag".data)]) := by
      simp [viewportRule, h1, h2]
    by_cases hh : containsB headTag c = true
    · obtain ⟨a, b, _, hres⟩ := replaceOne_found headTag vpInsert (by decide) c hh
      have hvp : containsB vpGuardStr (viewportRule c).1 = true := by
        rw [hv]
        simpa [hres] using containsB_mid vpGuardStr vpInsert a b (by decide)
      have hsecond : viewportRule ((viewportRule c).1) = ((viewportRule c).1, []) := by
        generalize hd : (viewportRule c).1 = d at hvp
        have hcnd : ¬(containsB vpGuardStr d = false ∧ containsB "<head".data d = true) := by
          intro hx
          rw [hvp] at hx
          exact absurd hx.1 (by simp)
        unfold viewportRule
        rw [if_neg hcnd]
      exact ⟨by rw [hsecond], fun _ => hsecond, hcss⟩
    · have hh' : containsB headTag c = false := by
        cases h : containsB headTag c
        · rfl
        · exact absurd h hh
      have hid : (viewportRule c).1 = c := by
        rw [hv]
        exact replaceOne_not _ _ c hh'
      refine ⟨?_, fun hne => absurd hid hne, hcss⟩
      rw [hid, hv]
      rw [hv] at hid
      exact hid
  · have hv : viewportRule c = (c, []) := by
      unfold viewportRule
      rw [if_neg hg]
    refine ⟨?_, fun hne => absurd (by rw [hv]) hne, hcss⟩
    rw [hv]
    rw [hv]

/-- Witness for the amended C4 at `<head></head>` (the first application
inserts, the second is a strict no-op). -/
theorem c4_amended_witness :
    (viewportRule "<head></head>".data).1 ≠ "<head></head>".data ∧
    viewportRule ((viewportRule "<head></head>".data).1) =
      ((viewportRule "<head></head>".data).1, []) :=
  ⟨by decide, (c4_amended "<head></head>".data).2.1 (by decide)⟩

/-- Counterexample to C5: the loop iterates once per declaration occurrence,
not once per distinct identifier, so `var x = 1; var x = 2;` has both
declarations rewritten — the output keeps no `var x = 2` as the claim's
"only the first remaining declaration occurrence" reading would require. -/
theorem c5_counterexample :
    modJsCore "var x = 1; var x = 2;".data =
      ("let x = 1; let x = 2;".data,
       [("modern-js".data, "Replaced 2 var declarations with let/const".data)]) ∧
    containsB "var x = 2".data (modJsCore "var x = 1; var x = 2;".data).1 = false :=
  ⟨by decide, by decide⟩

/-- Claim C5 as amended: the rule processes one entry per `var`-declaration
occurrence (duplicates included), each iteration counting textual `name =`
occurrences in the current text and rewriting the first remaining
declaration of that identifier to `const` (count exactly one) or `let`
(otherwise); a text without such declarations is untouched with no record,
and otherwise exactly one `modern-js` record carries the occurrence count. -/
theorem c5_amended :
    (∀ c : Text, findVarDecls c = [] → modJsCore c = (c, [])) ∧
    (∀ c : Text, findVarDecls c ≠ [] →
      (modJsCore c).2 =
        [("modern-js".data,
          "Replaced ".data ++ (Nat.repr (findVarDecls c).length).data
            ++ " var declarations with let/const".data)]) ∧
    modJsCore "var x = 1;".data =
      ("const x = 1;".data,
       [("modern-js".data, "Replaced 1 var declarations with let/const".data)]) ∧
    modJsCore "var y = 1; y = 2;".data =
      ("let y = 1; y = 2;".data,
       [("modern-js".data, "Replaced 1 var declarations with let/const".data)]) ∧
    modJsCore "var x = 1; var x = 2;".data =
      ("let x = 1; let x = 2;".data,
       [("modern-js".data, "Replaced 2 var declarations with let/const".data)]) := by
  refine ⟨?_, ?_, by decide, by decide, by decide⟩
  · intro c h
    simp [modJsCore, h]
  · intro c h
    have hne : (findVarDecls c).isEmpty = false := by
      cases hd : findVarDecls c with
      | nil => exact absurd hd h
      | cons a l => rfl
    simp [modJsCore, hne]

/-- Witness for the quantified parts of the amended C5. -/
theorem c5_amended_witness :
    modJsCore "let z = 3;".data = ("let z = 3;".data, []) ∧
    (modJsCore "var x = 1;".data).2 =
      [("modern-js".data,
        "Replaced ".data ++ (Nat.repr (findVarDecls "var x = 1;".data).length).data
          ++ " var declarations with let/const".data)] :=
  ⟨c5_amended.1 "let z = 3;".data (by decide),
   c5_amended.2.1 "var x = 1;".data (by decide)⟩

theorem findImgsF_mem_eq (fuel : Nat) :
    ∀ t img, img ∈ findImgsF fuel t → ∃ rest, img = "<img".data ++ rest := by
  induction fuel with
  | zero =>
    intro t img h
    simp [findImgsF] at h
  | succ n ih =>
    intro t img h
    cases t with
    | nil => simp [findImgsF] at h
    | cons x xs =>
      simp only [findImgsF] at h
      split at h
      · split at h
        · rcases List.mem_cons.mp h with h | h
          · exact ⟨_, h⟩
          · exact ih _ img h
        · exact ih _ img h
      · exact ih _ img h

/-- Claim C6: every found `<img ...>` tag lacking an alt attribute receives
`alt="<derived>"` immediately after the `<img` token; the derivation
title-cases the src filename stem with hyphens/underscores as spaces, and
defaults to "Image" without a src — in particular for the two spec
examples. -/
theorem c6_alt_text (c img : Text) (h : img ∈ findImgs c) :
    (∃ rest, img = "<img".data ++ rest ∧
       processImg img = "<img alt=\"".data ++ altText img ++ ['"'] ++ rest) ∧
    imgAltRule "<img src=\"my-cool_photo.png\">".data =
      ("<img alt=\"My Cool Photo\" src=\"my-cool_photo.png\">".data,
       [("accessibility".data, "Added alt attributes to 1 images".data)]) ∧
    imgAltRule "<img>".data =
      ("<img alt=\"Image\">".data,
       [("accessibility".data, "Added alt attributes to 1 images".data)]) := by
  refine ⟨?_, by decide, by decide⟩
  unfold findImgs at h
  obtain ⟨rest, hrest⟩ := findImgsF_mem_eq _ _ img h
  subst hrest
  refine ⟨rest, rfl, ?_⟩
  unfold processImg
  rw [replaceOne_head _ _ _ (by decide)]

/-- Witness for C6 at the srcless tag `<img>`. -/
theorem c6_alt_text_witness :
    (∃ rest, "<img>".data = "<img".data ++ rest ∧
       processImg "<img>".data =
         "<img alt=\"".data ++ altText "<img>".data ++ ['"'] ++ rest) ∧
    imgAltRule "<img src=\"my-cool_photo.png\">".data =
      ("<img alt=\"My Cool Photo\" src=\"my-cool_photo.png\">".data,
       [("accessibility".data, "Added alt attributes to 1 images".data)]) ∧
    imgAltRule "<img>".data =
      ("<img alt=\"Image\">".data,
       [("accessibility".data, "Added alt attributes to 1 images".data)]) :=
  c6_alt_text "<img>".data "<img>".data (by decide)

/-- Claim C7: the i-th style attribute occurrence (1-indexed, document
order) becomes `class="inline-style-i"`, first-remaining-occurrence
replacement keeps identical style strings from being double-edited, and one
`inline-styles` record carries the total count. -/
theorem c7_inline_styles (c : Text) (h : findStyles c ≠ []) :
    (inlineStylesRule c).2 =
      [("inline-styles".data,
        "Extracted ".data ++ (Nat.repr (findStyles c).length).data
          ++ " inline styles to classes".data)] ∧
    inlineStylesRule "<p style=\"color:red\">x</p><div style=\"color:red\">y</div>".data =
      ("<p class=\"inline-style-1\">x</p><div class=\"inline-style-2\">y</div>".data,
       [("inline-styles".data, "Extracted 2 inline styles to classes".data)]) := by
  refine ⟨?_, by decide⟩
  have hne : (findStyles c).isEmpty = false := by
    cases hd : findStyles c with
    | nil => exact absurd hd h
    | cons a l => rfl
  simp [inlineStylesRule, hne]

/-- Witness for C7 at a text with two identical inline styles. -/
theorem c7_inline_styles_witness :
    (inlineStylesRule "<p style=\"color:red\">x</p><div style=\"color:red\">y</div>".data).2 =
      [("inline-styles".data,
        "Extracted ".data
          ++ (Nat.repr (findStyles "<p style=\"color:red\">x</p><div style=\"color:red\">y</div>".data).length).data
          ++ " inline styles to classes".data)] ∧
    inlineStylesRule "<p style=\"color:red\">x</p><div style=\"color:red\">y</div>".data =
      ("<p class=\"inline-style-1\">x</p><div class=\"inline-style-2\">y</div>".data,
       [("inline-styles".data, "Extracted 2 inline styles to classes".data)]) :=
  c7_inline_styles "<p style=\"color:red\">x</p><div style=\"color:red\">y</div>".data
    (by decide)

/-- Counterexample to C8: with an unreadable first file and a readable
second file, the session loop aborts at the first file (no try/except in
`modernize()`), so the second file is never transformed — the spec-modelled
skip-and-continue behaviour would have produced its transformation. -/
theorem c8_counterexample :
    sessionProcess [⟨false, FType.js, []⟩, ⟨true, FType.js, "var x = 1;".data⟩] =
      ([], some ⟨false, FType.js, []⟩) ∧
    sessionProcessSkip [⟨false, FType.js, []⟩, ⟨true, FType.js, "var x = 1;".data⟩] =
      ["const x = 1;".data] ∧
    (sessionProcess [⟨false, FType.js, []⟩, ⟨true, FType.js, "var x = 1;".data⟩]).1 ≠
      sessionProcessSkip [⟨false, FType.js, []⟩, ⟨true, FType.js, "var x = 1;".data⟩] :=
  ⟨by decide, by decide, by decide⟩

/-- Claim C8 as amended: decoding is per-file total (`errors='ignore'`
cannot raise), and a session over readable files processes all of them; but
an OS-level unreadable file is not skipped — the uncaught exception ends the
session at that file, leaving only the files before it processed. -/
theorem c8_amended :
    (∀ files : List RawFile, (∀ g ∈ files, g.readable = true) →
       sessionProcess files
         = (files.map (fun g => (transformFor g.ftype g.content).1), none)) ∧
    (∀ (pre : List RawFile) (f : RawFile) (post : List RawFile),
       (∀ g ∈ pre, g.readable = true) → f.readable = false →
       sessionProcess (pre ++ f :: post)
         = (pre.map (fun g => (transformFor g.ftype g.content).1), some f)) := by
  constructor
  · intro files
    induction files with
    | nil => intro _; rfl
    | cons g gs ih =>
      intro hall
      have hg : g.readable = true := hall g (List.mem_cons_self g gs)
      have hgs := ih (fun a ha => hall a (List.mem_cons_of_mem g ha))
      simp [sessionProcess, readText, hg, hgs]
  · intro pre
    induction pre with
    | nil =>
      intro f post _ hf
      simp [sessionProcess, readText, hf]
    | cons g gs ih =>
      intro f post hall hf
      have hg : g.readable = true := hall g (List.mem_cons_self g gs)
      have hrest := ih f post (fun a ha => hall a (List.mem_cons_of_mem g ha)) hf
      simp [sessionProcess, readText, hg, hrest]

/-- Witness for the amended C8: a readable-only run, and a run hitting an
unreadable second file. -/
theorem c8_amended_witness :
    sessionProcess [⟨true, FType.css, "a".data⟩]
      = ([(⟨true, FType.css, "a".data⟩ : RawFile)].map
          (fun g => (transformFor g.ftype g.content).1), none) ∧
    sessionProcess ([⟨true, FType.css, "a".data⟩] ++ (⟨false, FType.js, []⟩ : RawFile) :: [])
      = ([(⟨true, FType.css, "a".data⟩ : RawFile)].map
          (fun g => (transformFor g.ftype g.content).1),
         some ⟨false, FType.js, []⟩) :=
  ⟨c8_amended.1 [⟨true, FType.css, "a".data⟩] (by decide),
   c8_amended.2 [⟨true, FType.css, "a".data⟩] ⟨false, FType.js, []⟩ [] (by decide) (by decide)⟩

end WM
